import Mathlib

/-!
Verification development for the lambda-durable-functions repository.

The repository ships example AWS Lambda handlers (order processing, approval
workflow, batch processing) built on a durable step-execution engine imported
from the package named at the top of each handler file.  The engine itself
(checkpoint store, step executor, workflow runner, timer service, compensation
coordinator) is not part of the repository sources, so it is modelled here from
the specification; the handler step bodies and control flow are embedded from
the repository sources.  Machine reals (JS numbers) are modelled as exact
integers: item prices are carried in cents, which agrees with IEEE double
arithmetic at every concrete input used below.
-/

namespace Durable

/-- Modelled from the spec: `WorkflowRun.status` enum of the data model. -/
inductive RunStatus where
  | running | suspended | completed | failed | rolledBack
deriving DecidableEq

/-- Modelled from the spec: `StepRecord.status` enum.  PENDING records exist
only while an invocation is in flight, so at-rest checkpoint logs hold only
SUCCEEDED and FAILED records. -/
inductive StepStatus where
  | pending | succeeded | failed
deriving DecidableEq

/-- Modelled from the spec: one entry of the checkpoint log, ordered by
`sequence` (`result` present iff SUCCEEDED, `error` present iff FAILED). -/
structure StepRecord (V : Type) where
  sequence : Nat
  stepName : String
  status : StepStatus
  result : Option V
  error : Option String
deriving DecidableEq

/-- One observable invocation of a step body: which step ran, at which
sequence slot, with which accumulated prior results and which run input. -/
structure Inv (V I : Type) where
  stepName : String
  sequence : Nat
  prior : List V
  input : I
deriving DecidableEq

/-- Modelled from the spec: a pluggable step body together with its optional
compensating action.  A body receives the accumulated results of all prior
steps and the run input; a compensating action receives the step's own result
and reports `some msg` when the rollback action fails. -/
structure StepDef (V I : Type) where
  name : String
  body : List V → I → Except String V
  comp : Option (V → Option String)

/-- Modelled from the spec: one element of a workflow's control flow for a
given run — either a step or a timed wait directive. -/
inductive Action (V I : Type) where
  | step (d : StepDef V I)
  | wait (duration : Nat)

/-- Modelled from the spec: the (deterministic, per run) sequence of actions a
workflow issues — the Workflow Runner walks it from sequence 0 on every
invocation. -/
abbrev Workflow (V I : Type) := List (Action V I)

/-- Modelled from the spec: the per-run persisted state reconstructed from the
Checkpoint Store at the start of every invocation.  `waitsDone` counts the
wait directives already resumed past; `waitRec` is the at-most-one active
WaitRecord (its `resumeAt` time). -/
structure RunState (V : Type) where
  status : RunStatus
  log : List (StepRecord V)
  waitsDone : Nat
  waitRec : Option Nat
deriving DecidableEq

/-- Modelled from the spec: structured terminal error of a failed run — the
failing step's identity, the underlying error, and the list of compensation
outcomes (sequence, step name, optional failure message of the rollback
action). -/
structure TerminalError where
  failedStep : String
  underlying : String
  compensations : List (Nat × String × Option String)
deriving DecidableEq

/-- Result of one Workflow Runner invocation as surfaced to the trigger. -/
inductive Outcome (V : Type) where
  | completed (results : List V)
  | suspended (resumeAt : Nat)
  | rolledBack (e : TerminalError)
  | noop
deriving DecidableEq

/-- Internal result of walking the action list within one invocation. -/
inductive ExecResult (V : Type) where
  | done (results : List V)
  | suspend (resumeAt : Nat)
  | failAt (stepName : String) (sequence : Nat) (msg : String)
deriving DecidableEq

/-- Modelled from the spec: a trigger that starts/continues a run, or a timer
fire (at-least-once delivery) carrying its arrival time. -/
inductive Trigger where
  | start (now : Nat)
  | resume (time : Nat)
deriving DecidableEq

/-- Boolean test used by the replay lookup: is `r` a SUCCEEDED record at
sequence `j`? -/
def isSuccAt (j : Nat) (r : StepRecord V) : Bool :=
  r.sequence == j && (match r.status with | .succeeded => true | _ => false)

/-- Modelled from the spec: the Step Executor's replay lookup — an existing
SUCCEEDED record at the current sequence, if any. -/
def lookupSucceeded (log : List (StepRecord V)) (j : Nat) : Option (StepRecord V) :=
  log.find? (isSuccAt j)

/-- A freshly written SUCCEEDED record. -/
def mkSucc (seq : Nat) (name : String) (v : V) : StepRecord V :=
  ⟨seq, name, .succeeded, some v, none⟩

/-- A freshly written FAILED record. -/
def mkFail (seq : Nat) (name : String) (msg : String) : StepRecord V :=
  ⟨seq, name, .failed, none, some msg⟩

/-- A checkpoint log consisting of consecutive SUCCEEDED records starting at
sequence `s`, one per (step name, result) pair. -/
def succLog (s : Nat) : List (String × V) → List (StepRecord V)
  | [] => []
  | (n, v) :: t => mkSucc s n v :: succLog (s + 1) t

/-- Modelled from the spec: the Step Executor / Workflow Runner walk.  For each
step action it first consults the checkpoint log for a SUCCEEDED record at the
current sequence and, when found, returns its checkpointed result without
invoking the body (the replay short-circuit); otherwise it invokes the body
with the accumulated prior results and the run input, persisting the outcome.
A wait directive already resumed past (index below `wdone`) is skipped;
otherwise the walk stops, yielding a suspension at `now + duration`.  Returns
the newly appended records, the trace of body invocations, and how the walk
ended. -/
def execActs (input : I) (now : Nat) (log : List (StepRecord V)) :
    List (Action V I) → Nat → Nat → Nat → List V →
    List (StepRecord V) × List (Inv V I) × ExecResult V
  | [], _, _, _, acc => ([], [], .done acc)
  | .step d :: rest, seq, widx, wdone, acc =>
    match lookupSucceeded log seq with
    | some r =>
      match r.result with
      | some v => execActs input now log rest (seq + 1) widx wdone (acc ++ [v])
      | none => ([], [], .failAt d.name seq "corrupt checkpoint record")
    | none =>
      match d.body acc input with
      | .ok v =>
        let out := execActs input now log rest (seq + 1) widx wdone (acc ++ [v])
        (mkSucc seq d.name v :: out.1, ⟨d.name, seq, acc, input⟩ :: out.2.1, out.2.2)
      | .error e =>
        ([mkFail seq d.name e], [⟨d.name, seq, acc, input⟩], .failAt d.name seq e)
  | .wait dur :: rest, seq, widx, wdone, acc =>
    if widx < wdone then execActs input now log rest seq (widx + 1) wdone acc
    else ([], [], .suspend (now + dur))

/-- The step definitions of a workflow, in sequence order. -/
def stepsOf (wf : Workflow V I) : List (StepDef V I) :=
  wf.filterMap fun a => match a with | .step d => some d | .wait _ => none

/-- The step definition owning sequence slot `n`, if any. -/
def stepDefAt (wf : Workflow V I) (n : Nat) : Option (StepDef V I) :=
  (stepsOf wf)[n]?

/-- The compensation entry contributed by one checkpoint record: present iff
the record is SUCCEEDED, carries a result, and its step declared a
compensating action, in which case the action is invoked with the step's own
result. -/
def compOf (wf : Workflow V I) (r : StepRecord V) : Option (Nat × String × Option String) :=
  match r.status with
  | .succeeded =>
    match r.result, stepDefAt wf r.sequence with
    | some v, some d => d.comp.map fun c => (r.sequence, d.name, c v)
    | _, _ => none
  | _ => none

/-- Modelled from the spec: the Compensation Coordinator — reads the checkpoint
log in descending sequence order and invokes the compensating action of every
SUCCEEDED record whose step declared one; a failing action is recorded and
does not halt the walk. -/
def compensate (wf : Workflow V I) (log : List (StepRecord V)) :
    List (Nat × String × Option String) :=
  log.reverse.filterMap (compOf wf)

/-- Modelled from the spec: the run state after terminal failure, before the
Compensation Coordinator runs (the transient FAILED state of the run state
machine). -/
def markFailed (st : RunState V) (log' : List (StepRecord V)) : RunState V :=
  { st with status := .failed, log := log', waitRec := none }

/-- Modelled from the spec: one Workflow Runner pass from sequence 0 — replay
plus forward progress are the same code path.  On completion the run is
COMPLETED; on a wait directive a WaitRecord is persisted and the run is
SUSPENDED; on a step failure the run transitions to FAILED, the Compensation
Coordinator runs over the whole log, and the run ends ROLLED_BACK with a
structured terminal error attached. -/
def runFrom (wf : Workflow V I) (input : I) (now : Nat) (st : RunState V) (wdone : Nat) :
    RunState V × Outcome V × List (Inv V I) :=
  match execActs input now st.log wf 0 0 wdone [] with
  | (recs, tr, .done results) =>
    ({ status := .completed, log := st.log ++ recs, waitsDone := wdone, waitRec := none },
      .completed results, tr)
  | (recs, tr, .suspend t) =>
    ({ status := .suspended, log := st.log ++ recs, waitsDone := wdone, waitRec := some t },
      .suspended t, tr)
  | (recs, tr, .failAt n _ m) =>
    let failedSt := markFailed { st with waitsDone := wdone } (st.log ++ recs)
    ({ failedSt with status := .rolledBack },
      .rolledBack ⟨n, m, compensate wf (st.log ++ recs)⟩, tr)

/-- Modelled from the spec: one Workflow Runner invocation.  A start trigger
advances a RUNNING run; a resume trigger is honoured only on a SUSPENDED run
whose WaitRecord has come due (the timer may deliver more than once — a
duplicate finds the run no longer SUSPENDED, or the time before `resumeAt`,
and no-ops). -/
def invoke (wf : Workflow V I) (input : I) (trig : Trigger) (st : RunState V) :
    RunState V × Outcome V × List (Inv V I) :=
  match trig with
  | .start now =>
    match st.status with
    | .running => runFrom wf input now st st.waitsDone
    | _ => (st, .noop, [])
  | .resume t =>
    match st.status with
    | .suspended =>
      match st.waitRec with
      | some resumeAt =>
        if resumeAt ≤ t then
          runFrom wf input t { st with status := .running, waitRec := none } (st.waitsDone + 1)
        else (st, .noop, [])
      | none => (st, .noop, [])
    | _ => (st, .noop, [])

/-- The state of a freshly triggered run: RUNNING with an empty checkpoint
log. -/
def initRun : RunState V := ⟨.running, [], 0, none⟩

/-! ## Approval workflow handler (src/durable-approval-workflow/index.mjs) -/

/-- The requester object of an approval event; the handler only ever reads its
`email` property. -/
structure ARequester where
  email : Option String
deriving DecidableEq

/-- Input event of the approval workflow handler.  Absent or falsy JS fields
are modelled as `none`. -/
structure AEvent where
  requestId : Option String
  requestType : Option String
  requester : Option ARequester
  description : Option String
  amount : Option Int
  currentBudget : Option Int
  requestedPermissions : Option (List String)
  simulateApprovalTime : Option Nat
deriving DecidableEq

/-- Result object of the approval validation step. -/
structure AValidation where
  requestId : String
  status : String
  requester : ARequester
  description : String
  amount : Int
  approverLevel : String
  timeoutHours : Nat
deriving DecidableEq

/-- The validation step body: requires `requester` and `description`, then
derives the approver level and timeout from the amount exactly as the source
does — `amount > 10000` is tested before `amount > 50000`, so the second
branch is unreachable. -/
def approvalValidation (requestId : String) (ev : AEvent) : Except String AValidation :=
  match ev.requester with
  | none => .error "Requester information is required"
  | some req =>
    match ev.description with
    | none => .error "Request description is required"
    | some desc =>
      let amount := ev.amount.getD 0
      let lv :=
        if amount > 10000 then ("director", (48 : Nat))
        else if amount > 50000 then ("vp", 72)
        else ("manager", 24)
      .ok ⟨requestId, "validated", req, desc, amount, lv.1, lv.2⟩

/-- Identifiers the handler draws from `Date.now()` / `Math.random()`, and the
simulated approval decision, gathered into an oracle so the embedded handler
is a pure function of (event, oracle). -/
structure AEnv where
  genRequestId : String
  approvalId : String
  notificationId : String
  executionId : String
  confirmationId : String
  rejectionId : String
  rejNotificationId : String
  isApproved : Bool
deriving DecidableEq

/-- Result object of the submission step. -/
structure ASubmission where
  requestId : String
  status : String
  approvalId : String
  submittedTo : String
deriving DecidableEq

/-- Submission step body: submits to `approverLevel@example.com`. -/
def submissionStep (requestId : String) (v : AValidation) (env : AEnv) : ASubmission :=
  ⟨requestId, "submitted_for_approval", env.approvalId, v.approverLevel ++ "@example.com"⟩

/-- Result object of the approver-notification step. -/
structure ANotification where
  requestId : String
  status : String
  notificationId : String
  sentTo : String
deriving DecidableEq

/-- Approver-notification step body. -/
def notificationStep (requestId : String) (s : ASubmission) (env : AEnv) : ANotification :=
  ⟨requestId, "notification_sent", env.notificationId, s.submittedTo⟩

/-- Result object of the approval-check step. -/
structure ACheck where
  requestId : String
  status : String
  decision : String
  approvedBy : Option String
  comments : String
deriving DecidableEq

/-- Approval-check step body: the simulated decision comes from the oracle
(`Math.random() > 0.1` in the source). -/
def approvalCheckStep (requestId : String) (s : ASubmission) (env : AEnv) : ACheck :=
  let decision := if env.isApproved then "approved" else "rejected"
  ⟨requestId, "approval_" ++ decision, decision,
    if env.isApproved then some s.submittedTo else none,
    if env.isApproved then "Request approved after review"
    else "Request rejected - requires additional documentation"⟩

/-- The request-type dependent execution details of the approved branch. -/
inductive AExecDetails where
  | budget (budgetIncreased : Bool) (newBudgetLimit : Int)
  | access (accessGranted : Bool) (grantedPermissions : List String)
  | general (actionTaken : String) (details : String)
deriving DecidableEq

/-- Result object of the execution step (approved branch). -/
structure AExec where
  requestId : String
  status : String
  executionId : String
  details : AExecDetails
deriving DecidableEq

/-- Execution step body.  The source switches on
`validationResult.requestType || requestType`; `validationResult` carries no
`requestType` property, so the handler-level default
(`event.requestType || 'general'`) always applies. -/
def executionStep (requestId : String) (ev : AEvent) (v : AValidation) (env : AEnv) : AExec :=
  let details :=
    match ev.requestType.getD "general" with
    | "budget_increase" => AExecDetails.budget true ((ev.currentBudget.getD 0) + v.amount)
    | "access_request" => AExecDetails.access true (ev.requestedPermissions.getD ["read"])
    | _ => AExecDetails.general "general_approval_processed" v.description
  ⟨requestId, "executed", env.executionId, details⟩

/-- Result object of the approval-confirmation step; `sentTo` is the
requester's `email` property, which may be absent (JS `undefined`). -/
structure AConfirmation where
  requestId : String
  status : String
  confirmationId : String
  sentTo : Option String
deriving DecidableEq

/-- Approval-confirmation step body. -/
def confirmationStep (requestId : String) (v : AValidation) (env : AEnv) : AConfirmation :=
  ⟨requestId, "approval_confirmed", env.confirmationId, v.requester.email⟩

/-- Result object of the rejection-processing step. -/
structure ARejection where
  requestId : String
  status : String
  rejectionId : String
  reason : String
deriving DecidableEq

/-- Rejection-processing step body. -/
def rejectionStep (requestId : String) (c : ACheck) (env : AEnv) : ARejection :=
  ⟨requestId, "rejection_processed", env.rejectionId, c.comments⟩

/-- Result object of the rejection-notification step. -/
structure ARejNotification where
  requestId : String
  status : String
  notificationId : String
  sentTo : Option String
deriving DecidableEq

/-- Rejection-notification step body. -/
def rejectionNotificationStep (requestId : String) (v : AValidation) (env : AEnv) :
    ARejNotification :=
  ⟨requestId, "rejection_notified", env.rejNotificationId, v.requester.email⟩

/-- The handler's final result object (key fields of the summary). -/
structure AFinal where
  requestId : String
  status : String
  decision : String
  approvedBy : Option String
  reason : Option String
deriving DecidableEq

/-- The approval handler's try-block: validation, submission, notification,
the timed wait (driven by the engine, no effect on the computed results),
approval check, then the approved or rejected branch.  Only the validation
step can throw — every later step body contains no `throw`. -/
def approvalCore (ev : AEvent) (env : AEnv) : Except String AFinal :=
  let requestId := ev.requestId.getD env.genRequestId
  match approvalValidation requestId ev with
  | .error e => .error e
  | .ok v =>
    let s := submissionStep requestId v env
    let _n := notificationStep requestId s env
    let c := approvalCheckStep requestId s env
    if c.decision = "approved" then
      let _e := executionStep requestId ev v env
      let _cf := confirmationStep requestId v env
      .ok ⟨requestId, "completed_approved", "approved", c.approvedBy, none⟩
    else
      let r := rejectionStep requestId c env
      let _rn := rejectionNotificationStep requestId v env
      .ok ⟨requestId, "completed_rejected", "rejected", c.approvedBy, some r.reason⟩

/-- The whole approval handler: the catch block runs an error-handling step
(whose body cannot throw) and rethrows with the fixed message prefix. -/
def approvalHandler (ev : AEvent) (env : AEnv) : Except String AFinal :=
  match approvalCore ev env with
  | .ok f => .ok f
  | .error e => .error ("Approval workflow failed: " ++ e)

/-- Whether an embedded handler call surfaced an error. -/
def isErr : Except String α → Bool
  | .error _ => true
  | .ok _ => false

/-! ## Order processing handler (src/unnamed/part_002; the fallback paths of
src/durable-order-processing/index.mjs compute the same local results) -/

/-- One order line item; `priceCents` carries the JS float price in exact
cents. -/
structure OrderItem where
  productId : String
  quantity : Int
  priceCents : Int
deriving DecidableEq

/-- Input event of the order processing handler. -/
structure OEvent where
  orderId : Option String
  customerEmail : Option String
  items : List OrderItem
deriving DecidableEq

/-- `Number.prototype.toFixed(2)` on a nonnegative dollar amount given in
cents. -/
def toFixed2 (cents : Int) : String :=
  let d := cents / 100
  let r := cents % 100
  toString d ++ "." ++ (if r < 10 then "0" ++ toString r else toString r)

/-- The per-item validation loop: falsy `productId`/`quantity`/`price` first,
then nonpositive quantity, then nonpositive price, throwing on the first
invalid item (the source interpolates the whole item into the first message;
the model names the product). -/
def checkItems : List OrderItem → Except String Unit
  | [] => .ok ()
  | it :: rest =>
    if it.productId = "" ∨ it.quantity = 0 ∨ it.priceCents = 0 then
      .error ("Invalid item: " ++ it.productId)
    else if it.quantity ≤ 0 then
      .error ("Invalid quantity for product " ++ it.productId)
    else if it.priceCents ≤ 0 then
      .error ("Invalid price for product " ++ it.productId)
    else checkItems rest

/-- `items.reduce((sum, item) => sum + item.quantity * item.price, 0)`, in
cents. -/
def totalCents (items : List OrderItem) : Int :=
  items.foldl (fun sum it => sum + it.quantity * it.priceCents) 0

/-- Result object of the order validation step. -/
structure OValidation where
  orderId : String
  status : String
  itemCount : Nat
  totalAmount : String
deriving DecidableEq

/-- The order validation step body: rejects empty orders, validates each item,
then returns the two-decimal formatted total. -/
def orderValidation (orderId : String) (items : List OrderItem) : Except String OValidation :=
  if items.isEmpty then .error "Order must contain at least one item"
  else
    match checkItems items with
    | .error e => .error e
    | .ok _ => .ok ⟨orderId, "validated", items.length, toFixed2 (totalCents items)⟩

/-- One inventory check entry pushed by the inventory step. -/
structure InvCheck where
  productId : String
  requestedQuantity : Int
  availableQuantity : Int
  sufficient : Bool
deriving DecidableEq

/-- The `Math.random()` / `Date.now()` draws of the order handler, gathered
into an oracle. -/
structure OrderEnv where
  genOrderId : String
  availRand : Nat → Bool
  extraRand : Nat → Int
  paymentOk : Bool
  txnId : String
  resTag : String
  fulfillId : String

/-- The inventory step's per-item loop: a simulated availability draw per item
(`Math.random() > 0.05`), throwing on the first insufficient item. -/
def inventoryGo (env : OrderEnv) : Nat → List OrderItem → Except String (List InvCheck)
  | _, [] => .ok []
  | idx, it :: rest =>
    let available := env.availRand idx
    let availableQuantity := if available then it.quantity + env.extraRand idx else 0
    let check : InvCheck :=
      ⟨it.productId, it.quantity, availableQuantity,
        available && decide (it.quantity ≤ availableQuantity)⟩
    if !available || availableQuantity < it.quantity then
      .error ("Insufficient inventory for product " ++ it.productId ++ ". Requested: "
        ++ toString it.quantity ++ ", Available: " ++ toString availableQuantity)
    else
      (inventoryGo env (idx + 1) rest).map fun cs => check :: cs

/-- `parseFloat` of a two-decimal dollar string, back to cents. -/
def parseCents (st : String) : Int :=
  match st.splitOn "." with
  | [d] => Int.ofNat ((d.toNat?.getD 0) * 100)
  | d :: r :: _ => Int.ofNat ((d.toNat?.getD 0) * 100 + (r.toNat?.getD 0))
  | [] => 0

/-- Result object of the payment step. -/
structure OPayment where
  orderId : String
  status : String
  transactionId : String
  amountCents : Int
deriving DecidableEq

/-- One reservation entry of the reservation step. -/
structure OReservation where
  productId : String
  quantity : Int
  reservationId : String
deriving DecidableEq

/-- Result object of the reservation step. -/
structure OReserve where
  orderId : String
  status : String
  reservations : List OReservation
deriving DecidableEq

/-- Result object of the fulfillment step. -/
structure OFulfillment where
  orderId : String
  status : String
  fulfillmentOrderId : String
deriving DecidableEq

/-- Result object of the confirmation-notification step. -/
structure ONotification where
  orderId : String
  status : String
  recipient : String
deriving DecidableEq

/-- The value type of the order workflow's checkpointed step results. -/
inductive OVal where
  | validated (v : OValidation)
  | invChecked (orderId : String) (checks : List InvCheck)
  | payment (p : OPayment)
  | reserved (r : OReserve)
  | fulfilled (f : OFulfillment)
  | notified (n : ONotification)
deriving DecidableEq

/-- Order validation wrapped as an engine step body. -/
def orderValidationBody (env : OrderEnv) : List OVal → OEvent → Except String OVal :=
  fun _ ev => (orderValidation (ev.orderId.getD env.genOrderId) ev.items).map .validated

/-- Inventory check wrapped as an engine step body. -/
def orderInventoryBody (env : OrderEnv) : List OVal → OEvent → Except String OVal :=
  fun _ ev =>
    (inventoryGo env 0 ev.items).map fun cs =>
      .invChecked (ev.orderId.getD env.genOrderId) cs

/-- Payment step body: reads the validation step's `totalAmount` back via
`parseFloat` and draws the simulated payment outcome from the oracle. -/
def orderPaymentBody (env : OrderEnv) : List OVal → OEvent → Except String OVal :=
  fun prior _ =>
    match prior[0]? with
    | some (OVal.validated v) =>
      if env.paymentOk then
        .ok (.payment ⟨v.orderId, "payment_processed", env.txnId, parseCents v.totalAmount⟩)
      else .error "Payment processing failed"
    | _ => .error "missing validation result"

/-- Reservation step body. -/
def orderReserveBody (env : OrderEnv) : List OVal → OEvent → Except String OVal :=
  fun _ ev =>
    .ok (.reserved ⟨ev.orderId.getD env.genOrderId, "inventory_reserved",
      ev.items.map fun it => ⟨it.productId, it.quantity, env.resTag ++ it.productId⟩⟩)

/-- Fulfillment step body. -/
def orderFulfillBody (env : OrderEnv) : List OVal → OEvent → Except String OVal :=
  fun _ ev =>
    .ok (.fulfilled ⟨ev.orderId.getD env.genOrderId, "fulfillment_created", env.fulfillId⟩)

/-- Confirmation-notification step body. -/
def orderNotifyBody (env : OrderEnv) : List OVal → OEvent → Except String OVal :=
  fun _ ev =>
    .ok (.notified ⟨ev.orderId.getD env.genOrderId, "notification_sent",
      ev.customerEmail.getD "customer@example.com"⟩)

/-- The order workflow's step sequence; no step body in the source declares a
compensating action (the validation step in particular declares none). -/
def orderWf (env : OrderEnv) : Workflow OVal OEvent :=
  [.step ⟨"validation", orderValidationBody env, none⟩,
   .step ⟨"inventory_check", orderInventoryBody env, none⟩,
   .step ⟨"payment", orderPaymentBody env, none⟩,
   .step ⟨"inventory_reservation", orderReserveBody env, none⟩,
   .step ⟨"fulfillment", orderFulfillBody env, none⟩,
   .step ⟨"notification", orderNotifyBody env, none⟩]

/-- Oracle for the insufficient-inventory scenario: every availability draw
fails. -/
def c5Env : OrderEnv :=
  ⟨"order-123", fun _ => false, fun _ => 0, true, "txn-1", "res-", "fulfill-1"⟩

/-- The example-scenario order event. -/
def c5Event : OEvent :=
  ⟨some "order-123", some "customer@example.com", [⟨"prod-001", 2, 2999⟩]⟩

/-! ## Approval workflow inside the engine (rejected-branch run) -/

/-- The value type of the approval workflow's checkpointed step results. -/
inductive AVal where
  | validated (v : AValidation)
  | submitted (s : ASubmission)
  | notified (n : ANotification)
  | checked (c : ACheck)
  | rejProcessed (r : ARejection)
  | rejNotified (rn : ARejNotification)
deriving DecidableEq

/-- Approval validation wrapped as an engine step body. -/
def aValidationBody (env : AEnv) : List AVal → AEvent → Except String AVal :=
  fun _ ev => (approvalValidation (ev.requestId.getD env.genRequestId) ev).map .validated

/-- Submission wrapped as an engine step body. -/
def aSubmissionBody (env : AEnv) : List AVal → AEvent → Except String AVal :=
  fun prior ev =>
    match prior[0]? with
    | some (AVal.validated v) =>
      .ok (.submitted (submissionStep (ev.requestId.getD env.genRequestId) v env))
    | _ => .error "missing validation result"

/-- Approver notification wrapped as an engine step body. -/
def aNotificationBody (env : AEnv) : List AVal → AEvent → Except String AVal :=
  fun prior ev =>
    match prior[1]? with
    | some (AVal.submitted s) =>
      .ok (.notified (notificationStep (ev.requestId.getD env.genRequestId) s env))
    | _ => .error "missing submission result"

/-- Approval check wrapped as an engine step body. -/
def aCheckBody (env : AEnv) : List AVal → AEvent → Except String AVal :=
  fun prior ev =>
    match prior[1]? with
    | some (AVal.submitted s) =>
      .ok (.checked (approvalCheckStep (ev.requestId.getD env.genRequestId) s env))
    | _ => .error "missing submission result"

/-- Rejection processing wrapped as an engine step body. -/
def aRejBody (env : AEnv) : List AVal → AEvent → Except String AVal :=
  fun prior ev =>
    match prior[3]? with
    | some (AVal.checked c) =>
      .ok (.rejProcessed (rejectionStep (ev.requestId.getD env.genRequestId) c env))
    | _ => .error "missing approval check result"

/-- Rejection notification wrapped as an engine step body. -/
def aRejNotifBody (env : AEnv) : List AVal → AEvent → Except String AVal :=
  fun prior ev =>
    match prior[0]? with
    | some (AVal.validated v) =>
      .ok (.rejNotified (rejectionNotificationStep (ev.requestId.getD env.genRequestId) v env))
    | _ => .error "missing validation result"

/-- The action sequence of a rejected approval run: three steps, the timed
wait (`event.simulateApprovalTime || 2`), then the approval check and the two
rejection steps.  Per the determinism requirement, this sequence is stable
across every replay of the same run. -/
def approvalRejWf (env : AEnv) (ev : AEvent) : Workflow AVal AEvent :=
  [.step ⟨"validation", aValidationBody env, none⟩,
   .step ⟨"submission", aSubmissionBody env, none⟩,
   .step ⟨"notification", aNotificationBody env, none⟩,
   .wait (ev.simulateApprovalTime.getD 2),
   .step ⟨"approval_check", aCheckBody env, none⟩,
   .step ⟨"rejection_processing", aRejBody env, none⟩,
   .step ⟨"rejection_notification", aRejNotifBody env, none⟩]

/-- Oracle for the suspend/resume scenario: the simulated decision is a
rejection. -/
def c7Env : AEnv :=
  ⟨"req-1", "appr-1", "notif-1", "exec-1", "conf-1", "rej-1", "rejnotif-1", false⟩

/-- A valid approval event (requester and description present, default wait of
2 time units). -/
def c7Event : AEvent :=
  ⟨some "req-123", some "general", some ⟨some "requester@example.com"⟩,
    some "Office equipment purchase", some 500, none, none, none⟩

/-- The rejected-branch approval workflow of the suspend/resume scenario. -/
def c7Wf : Workflow AVal AEvent := approvalRejWf c7Env c7Event

/-- Run state after the initial trigger (suspended at the wait). -/
def c7St1 : RunState AVal := (invoke c7Wf c7Event (.start 0) initRun).1

/-- Body invocations of the initial trigger. -/
def c7Tr1 : List (Inv AVal AEvent) := (invoke c7Wf c7Event (.start 0) initRun).2.2

/-- Run state after the first (valid) resume delivery at time 2. -/
def c7St2 : RunState AVal := (invoke c7Wf c7Event (.resume 2) c7St1).1

/-- Body invocations of the first resume delivery. -/
def c7Tr2 : List (Inv AVal AEvent) := (invoke c7Wf c7Event (.resume 2) c7St1).2.2

/-! ## Batch processing handler (src/unnamed/part_000) -/

/-- A directive the batch handler issues to the engine, in order. -/
inductive BEvent where
  | step (name : String)
  | wait (seconds : Nat)
deriving DecidableEq

/-- The per-file processing loop: one step per file, and
`if (i < files.length - 1) await context.wait({ seconds: 2 })` between
consecutive files. -/
def fileLoopEvents : List String → List BEvent
  | [] => []
  | [f] => [.step ("process_file:" ++ f)]
  | f :: g :: rest => .step ("process_file:" ++ f) :: .wait 2 :: fileLoopEvents (g :: rest)

/-- The directive sequence of the batch handler: validation (which throws on
an empty batch), the per-file loop, then the summary report and the completion
notification. -/
def batchDirectives (dataFiles : List String) : Except String (List BEvent) :=
  if dataFiles.isEmpty then .error "Data batch must contain at least one file"
  else
    .ok ([.step "validate_batch"] ++ fileLoopEvents dataFiles
      ++ [.step "summary_report", .step "completion_notification"])

/-- Number of wait directives in a directive sequence. -/
def countWaits (evs : List BEvent) : Nat :=
  (evs.filter fun e => match e with | .wait _ => true | _ => false).length

/-! ## Small synthetic workflows used to instantiate the engine theorems -/

/-- Demo step: returns the run input plus one. -/
def demoStep0 : StepDef Nat Nat := ⟨"s0", fun _ i => .ok (i + 1), none⟩

/-- Demo step: returns ten times the sum of the prior results. -/
def demoStep1 : StepDef Nat Nat := ⟨"s1", fun ps _ => .ok (ps.foldl (· + ·) 0 * 10), none⟩

/-- Two-step demo workflow. -/
def demoWf : Workflow Nat Nat := [.step demoStep0, .step demoStep1]

/-- Demo step with a succeeding compensating action. -/
def compStepA : StepDef Nat Nat := ⟨"a", fun _ _ => .ok 1, some fun _ => none⟩

/-- Demo step whose compensating action itself fails. -/
def compStepB : StepDef Nat Nat :=
  ⟨"b", fun _ _ => .ok 2, some fun _ => some "rollback of b failed"⟩

/-- Demo step that fails terminally. -/
def compStepC : StepDef Nat Nat := ⟨"c", fun _ _ => .error "boom", none⟩

/-- Demo workflow: two succeeded steps with compensations, then a failing
step. -/
def compWf : Workflow Nat Nat := [.step compStepA, .step compStepB, .step compStepC]

/-! ## General lemmas about the engine walk -/

/-- Branch equation: replay short-circuit on a checkpointed SUCCEEDED
record. -/
theorem execActs_cached {log : List (StepRecord V)} {seq : Nat} {r : StepRecord V} {v : V}
    (input : I) (now : Nat) (d : StepDef V I) (rest : List (Action V I))
    (widx wdone : Nat) (acc : List V)
    (hl : lookupSucceeded log seq = some r) (hr : r.result = some v) :
    execActs input now log (.step d :: rest) seq widx wdone acc =
      execActs input now log rest (seq + 1) widx wdone (acc ++ [v]) := by
  simp only [execActs, hl, hr]

/-- Branch equation: a SUCCEEDED record without a result halts the walk. -/
theorem execActs_corrupt {log : List (StepRecord V)} {seq : Nat} {r : StepRecord V}
    (input : I) (now : Nat) (d : StepDef V I) (rest : List (Action V I))
    (widx wdone : Nat) (acc : List V)
    (hl : lookupSucceeded log seq = some r) (hr : r.result = none) :
    execActs input now log (.step d :: rest) seq widx wdone acc =
      ([], [], .failAt d.name seq "corrupt checkpoint record") := by
  simp only [execActs, hl, hr]

/-- Branch equation: fresh step whose body succeeds. -/
theorem execActs_fresh_ok {log : List (StepRecord V)} {seq : Nat} {v : V}
    (input : I) (now : Nat) (d : StepDef V I) (rest : List (Action V I))
    (widx wdone : Nat) (acc : List V)
    (hl : lookupSucceeded log seq = none) (hb : d.body acc input = .ok v) :
    execActs input now log (.step d :: rest) seq widx wdone acc =
      (mkSucc seq d.name v :: (execActs input now log rest (seq + 1) widx wdone (acc ++ [v])).1,
        ⟨d.name, seq, acc, input⟩ ::
          (execActs input now log rest (seq + 1) widx wdone (acc ++ [v])).2.1,
        (execActs input now log rest (seq + 1) widx wdone (acc ++ [v])).2.2) := by
  simp only [execActs, hl, hb]

/-- Branch equation: fresh step whose body fails. -/
theorem execActs_fresh_err {log : List (StepRecord V)} {seq : Nat} {e : String}
    (input : I) (now : Nat) (d : StepDef V I) (rest : List (Action V I))
    (widx wdone : Nat) (acc : List V)
    (hl : lookupSucceeded log seq = none) (hb : d.body acc input = .error e) :
    execActs input now log (.step d :: rest) seq widx wdone acc =
      ([mkFail seq d.name e], [⟨d.name, seq, acc, input⟩], .failAt d.name seq e) := by
  simp only [execActs, hl, hb]

/-- Branch equation: a wait directive already resumed past is skipped. -/
theorem execActs_wait_skip {widx wdone : Nat}
    (input : I) (now : Nat) (log : List (StepRecord V)) (dur : Nat)
    (rest : List (Action V I)) (seq : Nat) (acc : List V)
    (hw : widx < wdone) :
    execActs input now log (.wait dur :: rest) seq widx wdone acc =
      execActs input now log rest seq (widx + 1) wdone acc := by
  simp only [execActs, if_pos hw]

/-- Branch equation: a fresh wait directive suspends the walk. -/
theorem execActs_wait_stop {widx wdone : Nat}
    (input : I) (now : Nat) (log : List (StepRecord V)) (dur : Nat)
    (rest : List (Action V I)) (seq : Nat) (acc : List V)
    (hw : ¬ widx < wdone) :
    execActs input now log (.wait dur :: rest) seq widx wdone acc =
      ([], [], .suspend (now + dur)) := by
  simp only [execActs, if_neg hw]

/-- Every body invocation happens at a sequence slot that had no SUCCEEDED
checkpoint record: the replay short-circuit never lets a checkpointed step's
body run again. -/
theorem execActs_trace_not_cached (input : I) (now : Nat) (log : List (StepRecord V)) :
    ∀ (acts : List (Action V I)) (seq widx wdone : Nat) (acc : List V),
      ∀ inv ∈ (execActs input now log acts seq widx wdone acc).2.1,
        lookupSucceeded log inv.sequence = none := by
  intro acts
  induction acts with
  | nil =>
    intro seq widx wdone acc inv h
    simp [execActs] at h
  | cons a rest ih =>
    intro seq widx wdone acc inv h
    match a with
    | .step d =>
      cases hl : lookupSucceeded log seq with
      | some r =>
        cases hr : r.result with
        | some v =>
          rw [execActs_cached input now d rest widx wdone acc hl hr] at h
          exact ih _ _ _ _ inv h
        | none =>
          rw [execActs_corrupt input now d rest widx wdone acc hl hr] at h
          simp at h
      | none =>
        cases hb : d.body acc input with
        | ok v =>
          rw [execActs_fresh_ok input now d rest widx wdone acc hl hb] at h
          rcases List.mem_cons.mp h with h0 | h1
          · subst h0; exact hl
          · exact ih _ _ _ _ inv h1
        | error e =>
          rw [execActs_fresh_err input now d rest widx wdone acc hl hb] at h
          rcases List.mem_cons.mp h with h0 | h1
          · subst h0; exact hl
          · simp at h1
    | .wait dur =>
      by_cases hw : widx < wdone
      · rw [execActs_wait_skip input now log dur rest seq acc hw] at h
        exact ih _ _ _ _ inv h
      · rw [execActs_wait_stop input now log dur rest seq acc hw] at h
        simp at h

/-- Computation of the replay lookup over a SUCCEEDED prefix starting at
sequence `s`. -/
theorem lookupSucceeded_succLog (pairs : List (String × V)) :
    ∀ s j, s ≤ j →
      lookupSucceeded (succLog s pairs) j =
        (pairs[j - s]?).map fun p => mkSucc j p.1 p.2 := by
  induction pairs with
  | nil => intro s j _; simp [succLog, lookupSucceeded]
  | cons p t ih =>
    intro s j hs
    by_cases hj : j = s
    · subst hj
      have hp : isSuccAt j (mkSucc j p.1 p.2) = true := by simp [isSuccAt, mkSucc]
      simp [succLog, lookupSucceeded, List.find?_cons_of_pos _ hp]
    · have hne : ¬ isSuccAt j (mkSucc s p.1 p.2) = true := by
        simp [isSuccAt, mkSucc]
        omega
      have hs1 : s + 1 ≤ j := by omega
      have hk : j - s = (j - (s + 1)) + 1 := by omega
      calc lookupSucceeded (succLog s (p :: t)) j
          = lookupSucceeded (succLog (s + 1) t) j := by
            simp only [succLog, lookupSucceeded, List.find?_cons_of_neg _ hne]
        _ = (t[j - (s + 1)]?).map fun q => mkSucc j q.1 q.2 := ih (s + 1) j hs1
        _ = ((p :: t)[j - s]?).map fun q => mkSucc j q.1 q.2 := by
            rw [hk, List.getElem?_cons_succ]

/-- Sequence bounds of a SUCCEEDED prefix. -/
theorem succLog_seq_bounds (pairs : List (String × V)) :
    ∀ s, ∀ r ∈ succLog s pairs, s ≤ r.sequence ∧ r.sequence < s + pairs.length := by
  induction pairs with
  | nil => intro s r h; simp [succLog] at h
  | cons p t ih =>
    intro s r h
    simp only [List.length_cons]
    rcases List.mem_cons.mp h with h0 | h1
    · subst h0; simp [mkSucc]
    · have := ih (s + 1) r h1
      omega

/-- The sequences of a SUCCEEDED prefix are strictly increasing. -/
theorem succLog_seq_pairwise (pairs : List (String × V)) :
    ∀ s, ((succLog s pairs).map (fun r => r.sequence)).Pairwise (· < ·) := by
  induction pairs with
  | nil => intro s; simp [succLog]
  | cons p t ih =>
    intro s
    simp only [succLog, List.map_cons]
    refine List.pairwise_cons.mpr ⟨?_, ih (s + 1)⟩
    intro b hb
    rcases List.mem_map.mp hb with ⟨r, hr, hrb⟩
    have hbd := (succLog_seq_bounds t (s + 1) r hr).1
    subst hrb
    simp only [mkSucc]
    omega

/-- Every freshly appended checkpoint record sits at a sequence slot that had
no SUCCEEDED record before the invocation. -/
theorem execActs_recs_not_cached (input : I) (now : Nat) (log : List (StepRecord V)) :
    ∀ (acts : List (Action V I)) (seq widx wdone : Nat) (acc : List V),
      ∀ r ∈ (execActs input now log acts seq widx wdone acc).1,
        lookupSucceeded log r.sequence = none := by
  intro acts
  induction acts with
  | nil =>
    intro seq widx wdone acc r h
    simp [execActs] at h
  | cons a rest ih =>
    intro seq widx wdone acc r h
    match a with
    | .step d =>
      cases hl : lookupSucceeded log seq with
      | some rec0 =>
        cases hr : rec0.result with
        | some v =>
          rw [execActs_cached input now d rest widx wdone acc hl hr] at h
          exact ih _ _ _ _ r h
        | none =>
          rw [execActs_corrupt input now d rest widx wdone acc hl hr] at h
          simp at h
      | none =>
        cases hb : d.body acc input with
        | ok v =>
          rw [execActs_fresh_ok input now d rest widx wdone acc hl hb] at h
          rcases List.mem_cons.mp h with h0 | h1
          · subst h0; exact hl
          · exact ih _ _ _ _ r h1
        | error e =>
          rw [execActs_fresh_err input now d rest widx wdone acc hl hb] at h
          rcases List.mem_cons.mp h with h0 | h1
          · subst h0; exact hl
          · simp at h1
    | .wait dur =>
      by_cases hw : widx < wdone
      · rw [execActs_wait_skip input now log dur rest seq acc hw] at h
        exact ih _ _ _ _ r h
      · rw [execActs_wait_stop input now log dur rest seq acc hw] at h
        simp at h

/-- Replay over a run whose checkpoint log is a SUCCEEDED prefix: every body
invocation happens strictly beyond the prefix, and the priors handed to every
body carry the checkpointed results verbatim on the prefix. -/
theorem execActs_replay (input : I) (now : Nat) (pairs : List (String × V)) :
    ∀ (acts : List (Action V I)) (seq widx wdone : Nat) (acc : List V),
      seq = acc.length →
      (∀ j, j < pairs.length → j < acc.length →
        acc[j]? = (pairs.map Prod.snd)[j]?) →
      ∀ inv ∈ (execActs input now (succLog 0 pairs) acts seq widx wdone acc).2.1,
        pairs.length ≤ inv.sequence ∧
        ∀ j, j < pairs.length → inv.prior[j]? = (pairs.map Prod.snd)[j]? := by
  intro acts
  induction acts with
  | nil => intro seq widx wdone acc _ _ inv h; simp [execActs] at h
  | cons a rest ih =>
    intro seq widx wdone acc hlen hagree inv h
    match a with
    | .step d =>
      have hcomp := lookupSucceeded_succLog pairs 0 seq (Nat.zero_le seq)
      rw [Nat.sub_zero] at hcomp
      cases hl : lookupSucceeded (succLog 0 pairs) seq with
      | some r =>
        rw [hl] at hcomp
        cases hp : pairs[seq]? with
        | none => rw [hp] at hcomp; simp at hcomp
        | some p =>
          rw [hp] at hcomp
          simp only [Option.map_some'] at hcomp
          have hre : r = mkSucc seq p.1 p.2 := by
            injection hcomp with h0
          have hr : r.result = some p.2 := by rw [hre]; rfl
          rw [execActs_cached input now d rest widx wdone acc hl hr] at h
          have hseq : seq < pairs.length := by
            by_contra hcon
            rw [List.getElem?_eq_none_iff.mpr (Nat.le_of_not_lt fun hlt => hcon hlt)] at hp
            exact Option.noConfusion hp
          refine ih (seq + 1) widx wdone (acc ++ [p.2]) (by simp [hlen]) ?_ inv h
          intro j hjN hjlen
          rcases Nat.lt_or_ge j acc.length with hja | hja
          · rw [List.getElem?_append, if_pos hja]
            exact hagree j hjN hja
          · have hje : j = acc.length := by
              simp only [List.length_append, List.length_cons, List.length_nil] at hjlen
              omega
            subst hje
            rw [List.getElem?_concat_length, List.getElem?_map, ← hlen, hp]
            rfl
      | none =>
        rw [hl] at hcomp
        have hpnone : pairs[seq]? = none := Option.map_eq_none'.mp hcomp.symm
        have hpN : pairs.length ≤ seq := List.getElem?_eq_none_iff.mp hpnone
        cases hb : d.body acc input with
        | ok v =>
          rw [execActs_fresh_ok input now d rest widx wdone acc hl hb] at h
          rcases List.mem_cons.mp h with h0 | h1
          · subst h0
            refine ⟨hpN, fun j hj => hagree j hj (by omega)⟩
          · refine ih (seq + 1) widx wdone (acc ++ [v]) (by simp [hlen]) ?_ inv h1
            intro j hjN hjlen
            have hja : j < acc.length := by omega
            rw [List.getElem?_append, if_pos hja]
            exact hagree j hjN hja
        | error e =>
          rw [execActs_fresh_err input now d rest widx wdone acc hl hb] at h
          rcases List.mem_cons.mp h with h0 | h1
          · subst h0
            exact ⟨hpN, fun j hj => hagree j hj (by omega)⟩
          · simp at h1
    | .wait dur =>
      by_cases hw : widx < wdone
      · rw [execActs_wait_skip input now _ dur rest seq acc hw] at h
        exact ih seq (widx + 1) wdone acc hlen hagree inv h
      · rw [execActs_wait_stop input now _ dur rest seq acc hw] at h
        simp at h

/-- When the walk completes, every body invocation received the run input and
exactly the results of the strictly earlier steps, as found in the final
results list. -/
theorem execActs_done_spec (input : I) (now : Nat) (log : List (StepRecord V)) :
    ∀ (acts : List (Action V I)) (seq widx wdone : Nat) (acc : List V)
      (results : List V),
      (execActs input now log acts seq widx wdone acc).2.2 = .done results →
      seq = acc.length →
      (∃ t, results = acc ++ t) ∧
      ∀ inv ∈ (execActs input now log acts seq widx wdone acc).2.1,
        inv.input = input ∧ inv.prior.length = inv.sequence ∧
        inv.prior = results.take inv.sequence := by
  intro acts
  induction acts with
  | nil =>
    intro seq widx wdone acc results hx hlen
    simp only [execActs] at hx ⊢
    injection hx with h0
    subst h0
    exact ⟨⟨[], by simp⟩, by intro inv h; simp at h⟩
  | cons a rest ih =>
    intro seq widx wdone acc results hx hlen
    match a with
    | .step d =>
      cases hl : lookupSucceeded log seq with
      | some r =>
        cases hr : r.result with
        | some v =>
          rw [execActs_cached input now d rest widx wdone acc hl hr] at hx ⊢
          obtain ⟨⟨t, ht⟩, htr⟩ :=
            ih (seq + 1) widx wdone (acc ++ [v]) results hx (by simp [hlen])
          exact ⟨⟨[v] ++ t, by rw [ht, List.append_assoc]⟩, htr⟩
        | none =>
          rw [execActs_corrupt input now d rest widx wdone acc hl hr] at hx
          exact absurd hx (by simp)
      | none =>
        cases hb : d.body acc input with
        | ok v =>
          rw [execActs_fresh_ok input now d rest widx wdone acc hl hb] at hx ⊢
          simp only at hx
          obtain ⟨⟨t, ht⟩, htr⟩ :=
            ih (seq + 1) widx wdone (acc ++ [v]) results hx (by simp [hlen])
          have hres : results = acc ++ ([v] ++ t) := by
            rw [ht, List.append_assoc]
          refine ⟨⟨[v] ++ t, hres⟩, ?_⟩
          intro inv h
          rcases List.mem_cons.mp h with h0 | h1
          · subst h0
            refine ⟨rfl, hlen.symm, ?_⟩
            show acc = results.take seq
            rw [hres, hlen, List.take_left]
          · exact htr inv h1
        | error e =>
          rw [execActs_fresh_err input now d rest widx wdone acc hl hb] at hx
          exact absurd hx (by simp)
    | .wait dur =>
      by_cases hw : widx < wdone
      · rw [execActs_wait_skip input now _ dur rest seq acc hw] at hx ⊢
        exact ih seq (widx + 1) wdone acc results hx hlen
      · rw [execActs_wait_stop input now _ dur rest seq acc hw] at hx
        exact absurd hx (by simp)

/-- When the walk over a coherent (SUCCEEDED-prefix) log ends in a step
failure, a FAILED record carrying exactly the failing step's name and error
is among the newly appended records. -/
theorem execActs_failAt_mem (input : I) (now : Nat) (pairs : List (String × V)) :
    ∀ (acts : List (Action V I)) (seq widx wdone : Nat) (acc : List V)
      (n : String) (s : Nat) (m : String),
      (execActs input now (succLog 0 pairs) acts seq widx wdone acc).2.2 = .failAt n s m →
      mkFail s n m ∈ (execActs input now (succLog 0 pairs) acts seq widx wdone acc).1 := by
  intro acts
  induction acts with
  | nil =>
    intro seq widx wdone acc n s m hx
    simp [execActs] at hx
  | cons a rest ih =>
    intro seq widx wdone acc n s m hx
    match a with
    | .step d =>
      have hcomp := lookupSucceeded_succLog pairs 0 seq (Nat.zero_le seq)
      rw [Nat.sub_zero] at hcomp
      cases hl : lookupSucceeded (succLog 0 pairs) seq with
      | some r =>
        rw [hl] at hcomp
        cases hp : pairs[seq]? with
        | none => rw [hp] at hcomp; simp at hcomp
        | some p =>
          rw [hp] at hcomp
          simp only [Option.map_some'] at hcomp
          have hre : r = mkSucc seq p.1 p.2 := by injection hcomp with h0
          have hr : r.result = some p.2 := by rw [hre]; rfl
          rw [execActs_cached input now d rest widx wdone acc hl hr] at hx ⊢
          exact ih (seq + 1) widx wdone (acc ++ [p.2]) n s m hx
      | none =>
        cases hb : d.body acc input with
        | ok v =>
          rw [execActs_fresh_ok input now d rest widx wdone acc hl hb] at hx ⊢
          simp only at hx
          exact List.mem_cons_of_mem _ (ih (seq + 1) widx wdone (acc ++ [v]) n s m hx)
        | error e =>
          rw [execActs_fresh_err input now d rest widx wdone acc hl hb] at hx ⊢
          injection hx with h1 h2 h3
          subst h1; subst h2; subst h3
          exact List.mem_singleton.mpr rfl
    | .wait dur =>
      by_cases hw : widx < wdone
      · rw [execActs_wait_skip input now _ dur rest seq acc hw] at hx ⊢
        exact ih seq (widx + 1) wdone acc n s m hx
      · rw [execActs_wait_stop input now _ dur rest seq acc hw] at hx
        simp at hx

/-- The newly appended records carry sequences at or beyond the walk's start
sequence, in strictly increasing order. -/
theorem execActs_recs_mono (input : I) (now : Nat) (log : List (StepRecord V)) :
    ∀ (acts : List (Action V I)) (seq widx wdone : Nat) (acc : List V),
      (∀ r ∈ (execActs input now log acts seq widx wdone acc).1, seq ≤ r.sequence) ∧
      (((execActs input now log acts seq widx wdone acc).1.map
        (fun r => r.sequence)).Pairwise (· < ·)) := by
  intro acts
  induction acts with
  | nil =>
    intro seq widx wdone acc
    exact ⟨by intro r h; simp [execActs] at h, by simp [execActs]⟩
  | cons a rest ih =>
    intro seq widx wdone acc
    match a with
    | .step d =>
      cases hl : lookupSucceeded log seq with
      | some r0 =>
        cases hr : r0.result with
        | some v =>
          rw [execActs_cached input now d rest widx wdone acc hl hr]
          obtain ⟨hmono, hpw⟩ := ih (seq + 1) widx wdone (acc ++ [v])
          exact ⟨fun r h => Nat.le_of_succ_le (hmono r h), hpw⟩
        | none =>
          rw [execActs_corrupt input now d rest widx wdone acc hl hr]
          exact ⟨by intro r h; simp at h, by simp⟩
      | none =>
        cases hb : d.body acc input with
        | ok v =>
          rw [execActs_fresh_ok input now d rest widx wdone acc hl hb]
          obtain ⟨hmono, hpw⟩ := ih (seq + 1) widx wdone (acc ++ [v])
          constructor
          · intro r h
            rcases List.mem_cons.mp h with h0 | h1
            · subst h0; exact Nat.le_refl seq
            · exact Nat.le_of_succ_le (hmono r h1)
          · simp only [List.map_cons]
            refine List.pairwise_cons.mpr ⟨?_, hpw⟩
            intro b hb2
            rcases List.mem_map.mp hb2 with ⟨r, hr2, hrb⟩
            have := hmono r hr2
            subst hrb
            simp only [mkSucc]
            omega
        | error e =>
          rw [execActs_fresh_err input now d rest widx wdone acc hl hb]
          constructor
          · intro r h
            rcases List.mem_singleton.mp h with h0
            subst h0; exact Nat.le_refl seq
          · simp
    | .wait dur =>
      by_cases hw : widx < wdone
      · rw [execActs_wait_skip input now _ dur rest seq acc hw]
        exact ih seq (widx + 1) wdone acc
      · rw [execActs_wait_stop input now _ dur rest seq acc hw]
        exact ⟨by intro r h; simp at h, by simp⟩

/-- A start trigger on a RUNNING run performs one runner pass. -/
theorem invoke_start_running (wf : Workflow V I) (input : I) (now : Nat) (st : RunState V)
    (h : st.status = .running) :
    invoke wf input (.start now) st = runFrom wf input now st st.waitsDone := by
  unfold invoke
  rw [h]

/-- The runner pass only ever appends to the checkpoint log. -/
theorem runFrom_log (wf : Workflow V I) (input : I) (now : Nat) (st : RunState V)
    (wdone : Nat) :
    (runFrom wf input now st wdone).1.log =
      st.log ++ (execActs input now st.log wf 0 0 wdone []).1 := by
  unfold runFrom
  rcases hx : execActs input now st.log wf 0 0 wdone [] with ⟨recs, tr, res⟩
  cases res <;> rfl

/-- The runner pass surfaces exactly the walk's invocation trace. -/
theorem runFrom_trace (wf : Workflow V I) (input : I) (now : Nat) (st : RunState V)
    (wdone : Nat) :
    (runFrom wf input now st wdone).2.2 =
      (execActs input now st.log wf 0 0 wdone []).2.1 := by
  unfold runFrom
  rcases hx : execActs input now st.log wf 0 0 wdone [] with ⟨recs, tr, res⟩
  cases res <;> rfl

/-- Inversion: a COMPLETED outcome comes from a walk that ran to the end. -/
theorem runFrom_completed {wf : Workflow V I} {input : I} {now : Nat} {st st' : RunState V}
    {wdone : Nat} {results : List V} {tr : List (Inv V I)}
    (h : runFrom wf input now st wdone = (st', .completed results, tr)) :
    (execActs input now st.log wf 0 0 wdone []).2.2 = .done results ∧
    tr = (execActs input now st.log wf 0 0 wdone []).2.1 := by
  unfold runFrom at h
  revert h
  rcases hx : execActs input now st.log wf 0 0 wdone [] with ⟨recs, tr2, res⟩
  intro h
  cases res with
  | done rs =>
    rw [Prod.mk.injEq, Prod.mk.injEq] at h
    obtain ⟨_, h2, h3⟩ := h
    injection h2 with h2
    exact ⟨by rw [h2], h3.symm⟩
  | suspend t =>
    rw [Prod.mk.injEq, Prod.mk.injEq] at h
    exact absurd h.2.1 (by simp)
  | failAt n s m =>
    rw [Prod.mk.injEq, Prod.mk.injEq] at h
    exact absurd h.2.1 (by simp)

/-- Inversion: a ROLLED_BACK outcome comes from a walk that hit a step
failure; the terminal error carries that step's name and error, and the
compensation outcomes over the final log. -/
theorem runFrom_rolledBack {wf : Workflow V I} {input : I} {now : Nat} {st st' : RunState V}
    {wdone : Nat} {e : TerminalError} {tr : List (Inv V I)}
    (h : runFrom wf input now st wdone = (st', .rolledBack e, tr)) :
    ∃ n s m,
      (execActs input now st.log wf 0 0 wdone []).2.2 = .failAt n s m ∧
      tr = (execActs input now st.log wf 0 0 wdone []).2.1 ∧
      st' = ⟨.rolledBack, st.log ++ (execActs input now st.log wf 0 0 wdone []).1,
        wdone, none⟩ ∧
      e = ⟨n, m, compensate wf
        (st.log ++ (execActs input now st.log wf 0 0 wdone []).1)⟩ := by
  unfold runFrom at h
  revert h
  rcases hx : execActs input now st.log wf 0 0 wdone [] with ⟨recs, tr2, res⟩
  intro h
  cases res with
  | done rs =>
    rw [Prod.mk.injEq, Prod.mk.injEq] at h
    exact absurd h.2.1 (by simp)
  | suspend t =>
    rw [Prod.mk.injEq, Prod.mk.injEq] at h
    exact absurd h.2.1 (by simp)
  | failAt n s m =>
    rw [Prod.mk.injEq, Prod.mk.injEq] at h
    obtain ⟨h1, h2, h3⟩ := h
    injection h2 with h2
    exact ⟨n, s, m, rfl, h3.symm, h1.symm, h2.symm⟩

/-- A start trigger on a run that is not RUNNING is rejected. -/
theorem invoke_start_not_running (wf : Workflow V I) (input : I) (now : Nat)
    (st : RunState V) (h : ¬ st.status = .running) :
    invoke wf input (.start now) st = (st, .noop, []) := by
  unfold invoke
  cases hs : st.status <;> first | exact absurd hs h | rfl

/-- C1.  Idempotent replay: re-invoking the Runner on a run whose checkpoint
log is a prefix of SUCCEEDED records (with no new input) never re-executes
any succeeded step's body (every body invocation happens at a sequence at or
beyond the prefix), keeps every checkpointed record verbatim in the log, and
hands every later body the checkpointed results verbatim among its priors —
even though step bodies may draw on oracles such as `Math.random()` and
`Date.now()`, the checkpointed result is what replay returns. -/
theorem replay_idempotent (wf : Workflow V I) (input : I) (now : Nat)
    (pairs : List (String × V)) (st st' : RunState V) (out : Outcome V)
    (tr : List (Inv V I))
    (hst : st.status = .running) (hlog : st.log = succLog 0 pairs)
    (hinv : invoke wf input (.start now) st = (st', out, tr)) :
    (∀ inv ∈ tr, pairs.length ≤ inv.sequence) ∧
    (∀ r ∈ st.log, r ∈ st'.log) ∧
    (∀ inv ∈ tr, ∀ j, j < pairs.length →
      inv.prior[j]? = (pairs.map Prod.snd)[j]?) := by
  rw [invoke_start_running wf input now st hst] at hinv
  have hst' : (runFrom wf input now st st.waitsDone).1 = st' := by rw [hinv]
  have htr : (runFrom wf input now st st.waitsDone).2.2 = tr := by rw [hinv]
  have htr2 := runFrom_trace wf input now st st.waitsDone
  rw [htr] at htr2
  have hrep := execActs_replay input now pairs wf 0 0 st.waitsDone []
    rfl (by intro j _ h0; simp at h0)
  rw [← hlog] at hrep
  refine ⟨?_, ?_, ?_⟩
  · intro inv hi
    exact (hrep inv (by rw [← htr2]; exact hi)).1
  · intro r hr
    rw [← hst', runFrom_log wf input now st st.waitsDone]
    exact List.mem_append.mpr (Or.inl hr)
  · intro inv hi
    exact (hrep inv (by rw [← htr2]; exact hi)).2

/-- C8.  Step-body boundary: in any run that completes, every step body was
invoked with the run input and with exactly the accumulated results of all
strictly prior steps as its priors (the source handlers reach the run input
and prior step results through JS closures, which the shallow embedding
renders as these explicit arguments). -/
theorem step_body_receives_priors (wf : Workflow V I) (input : I) (now : Nat)
    (st st' : RunState V) (results : List V) (tr : List (Inv V I))
    (hinv : invoke wf input (.start now) st = (st', .completed results, tr)) :
    ∀ inv ∈ tr, inv.input = input ∧ inv.prior.length = inv.sequence ∧
      inv.prior = results.take inv.sequence := by
  by_cases hs : st.status = .running
  · rw [invoke_start_running wf input now st hs] at hinv
    obtain ⟨hdone, htr⟩ := runFrom_completed hinv
    obtain ⟨_, hspec⟩ :=
      execActs_done_spec input now st.log wf 0 0 st.waitsDone [] results hdone rfl
    rw [htr]
    exact hspec
  · rw [invoke_start_not_running wf input now st hs] at hinv
    rw [Prod.mk.injEq, Prod.mk.injEq] at hinv
    exact absurd hinv.2.1 (by simp)

/-- A compensation entry always carries its record's sequence. -/
theorem compOf_fst (wf : Workflow V I) (r : StepRecord V) (x : Nat × String × Option String)
    (h : compOf wf r = some x) : x.1 = r.sequence := by
  rcases r with ⟨seq, name, status, result, err⟩
  cases status with
  | succeeded =>
    cases result with
    | some v =>
      cases hd : stepDefAt wf seq with
      | some d =>
        simp only [compOf, hd] at h
        rcases Option.map_eq_some'.mp h with ⟨c, _, hx⟩
        rw [← hx]
      | none => simp [compOf, hd] at h
    | none => simp [compOf] at h
  | pending => simp [compOf] at h
  | failed => simp [compOf] at h

/-- Mapping a projection over a filterMap that preserves it yields a sublist
of the projected source. -/
theorem filterMap_map_sublist {α β γ : Type} (l : List α) (f : α → Option β) (g : β → γ)
    (p : α → γ) (hf : ∀ a b, f a = some b → g b = p a) :
    ((l.filterMap f).map g).Sublist (l.map p) := by
  induction l with
  | nil => simp
  | cons a t ih =>
    cases hfa : f a with
    | none =>
      rw [List.filterMap_cons_none hfa, List.map_cons]
      exact ih.cons _
    | some b =>
      rw [List.filterMap_cons_some hfa, List.map_cons, List.map_cons, hf a b hfa]
      exact ih.cons₂ _

/-- C4.  Compensation completeness: when a run with a prefix of successful
steps fails terminally, every SUCCEEDED step that declared a compensating
action contributes its compensation outcome — computed by invoking the action
on the step's own result — to the terminal error, regardless of whether any
compensating action itself fails, and the attached outcomes are in strictly
descending sequence order. -/
theorem compensation_complete_descending (wf : Workflow V I) (input : I) (now : Nat)
    (pairs : List (String × V)) (st st' : RunState V) (e : TerminalError)
    (tr : List (Inv V I))
    (hst : st.status = .running) (hlog : st.log = succLog 0 pairs)
    (hinv : invoke wf input (.start now) st = (st', .rolledBack e, tr)) :
    (∀ r ∈ st'.log, r.status = .succeeded →
      ∀ v, r.result = some v → ∀ d, stepDefAt wf r.sequence = some d →
        ∀ c, d.comp = some c → (r.sequence, d.name, c v) ∈ e.compensations) ∧
    ((e.compensations.map (fun x => x.1)).Pairwise (fun a b => b < a)) := by
  rw [invoke_start_running wf input now st hst] at hinv
  obtain ⟨n, s, m, hfail, htr, hst', he⟩ := runFrom_rolledBack hinv
  subst hst'
  subst he
  constructor
  · intro r hr hs v hv d hd c hc
    apply List.mem_filterMap.mpr
    refine ⟨r, List.mem_reverse.mpr hr, ?_⟩
    simp [compOf, hs, hv, hd, hc]
  · have hsub := filterMap_map_sublist
      ((st.log ++ (execActs input now st.log wf 0 0 st.waitsDone []).1).reverse)
      (compOf wf) (fun x => x.1) (fun r => r.sequence)
      (fun a b hab => compOf_fst wf a b hab)
    refine List.Pairwise.sublist hsub ?_
    rw [List.map_reverse, List.pairwise_reverse]
    rw [List.map_append, List.pairwise_append]
    refine ⟨?_, ?_, ?_⟩
    · rw [hlog]
      exact succLog_seq_pairwise pairs 0
    · exact (execActs_recs_mono input now st.log wf 0 0 st.waitsDone []).2
    · intro a ha b hb2
      rcases List.mem_map.mp ha with ⟨r1, hr1, ha1⟩
      rcases List.mem_map.mp hb2 with ⟨r2, hr2, hb1⟩
      rw [hlog] at hr1
      have h1 := (succLog_seq_bounds pairs 0 r1 hr1).2
      have h2 := execActs_recs_not_cached input now st.log wf 0 0 st.waitsDone [] r2 hr2
      rw [hlog, lookupSucceeded_succLog pairs 0 r2.sequence (Nat.zero_le _),
        Nat.sub_zero] at h2
      have h3 : pairs[r2.sequence]? = none := Option.map_eq_none'.mp h2
      have h4 : pairs.length ≤ r2.sequence := List.getElem?_eq_none_iff.mp h3
      subst ha1
      subst hb1
      omega

/-- C6.  Structured terminal error: every terminally failed run surfaces a
ROLLED_BACK state together with a structured terminal error whose failing-step
identity and underlying error match the FAILED checkpoint record the run wrote,
and whose compensation outcomes are exactly the Compensation Coordinator's
output over the final log — never a bare message-only exception. -/
theorem terminal_error_structured (wf : Workflow V I) (input : I) (now : Nat)
    (pairs : List (String × V)) (st st' : RunState V) (e : TerminalError)
    (tr : List (Inv V I))
    (hst : st.status = .running) (hlog : st.log = succLog 0 pairs)
    (hinv : invoke wf input (.start now) st = (st', .rolledBack e, tr)) :
    st'.status = .rolledBack ∧
    (∃ r ∈ st'.log, r.status = .failed ∧ r.stepName = e.failedStep ∧
      r.error = some e.underlying) ∧
    e.compensations = compensate wf st'.log := by
  rw [invoke_start_running wf input now st hst] at hinv
  obtain ⟨n, s, m, hfail, htr, hst', he⟩ := runFrom_rolledBack hinv
  subst hst'
  subst he
  refine ⟨rfl, ?_, rfl⟩
  rw [hlog] at hfail
  have hmem := execActs_failAt_mem input now pairs wf 0 0 st.waitsDone [] n s m hfail
  rw [← hlog] at hmem
  exact ⟨mkFail s n m, List.mem_append_right _ hmem, rfl, rfl, rfl⟩

/-- C7.  Suspend/resume correctness: a resume delivered before the
WaitRecord's due time is a no-op, a resume delivered to a COMPLETED run is a
no-op, and a bare start trigger does not advance a SUSPENDED run; concretely,
the approval run suspends at its wait directive with only the three pre-wait
steps executed, the first due resume completes it running the
rejection-processing step exactly once over the run's whole history, and a
duplicate delivery of the same resume trigger is a no-op (so the run
completes exactly once). -/
theorem suspend_resume_exactly_once :
    (∀ (A B : Type) (wf : Workflow A B) (input : B) (st : RunState A) (T t : Nat),
      st.status = .suspended → st.waitRec = some T → t < T →
      invoke wf input (.resume t) st = (st, .noop, [])) ∧
    (∀ (A B : Type) (wf : Workflow A B) (input : B) (st : RunState A) (t : Nat),
      st.status = .completed → invoke wf input (.resume t) st = (st, .noop, [])) ∧
    (∀ (A B : Type) (wf : Workflow A B) (input : B) (st : RunState A) (now : Nat),
      st.status = .suspended → invoke wf input (.start now) st = (st, .noop, [])) ∧
    c7St1.status = .suspended ∧
    c7St1.waitRec = some 2 ∧
    c7Tr1.map (fun i => i.stepName) = ["validation", "submission", "notification"] ∧
    (invoke c7Wf c7Event (.start 0) initRun).2.1 = .suspended 2 ∧
    c7St2.status = .completed ∧
    ((c7Tr1 ++ c7Tr2).filter (fun i => i.stepName == "rejection_processing")).length = 1 ∧
    invoke c7Wf c7Event (.resume 2) c7St2 = (c7St2, .noop, []) := by
  refine ⟨?_, ?_, ?_, ?_, ?_, ?_, ?_, ?_, ?_, ?_⟩
  · intro A B wf input st T t h1 h2 h3
    simp only [invoke, h1, h2]
    rw [if_neg (Nat.not_le.mpr h3)]
  · intro A B wf input st t h1
    unfold invoke
    rw [h1]
  · intro A B wf input st now h1
    unfold invoke
    rw [h1]
  all_goals decide

/-- C5.  Example scenario: with the sample order event and an oracle on which
every availability draw fails, the run ends ROLLED_BACK carrying failing step
`inventory_check` with the insufficient-inventory error; the checkpoint log
holds the succeeded validation step and the failed inventory step, the
Compensation Coordinator sees exactly the one SUCCEEDED step (validation,
which declares no compensation), and the compensation outcome list is
empty. -/
theorem order_inventory_failure_scenario :
    (invoke (orderWf c5Env) c5Event (.start 0) initRun).1.status = .rolledBack ∧
    (invoke (orderWf c5Env) c5Event (.start 0) initRun).2.1 =
      .rolledBack ⟨"inventory_check",
        "Insufficient inventory for product prod-001. Requested: 2, Available: 0", []⟩ ∧
    ((invoke (orderWf c5Env) c5Event (.start 0) initRun).1.log.map
      (fun r => (r.stepName, r.status))) =
      [("validation", .succeeded), ("inventory_check", .failed)] ∧
    (((invoke (orderWf c5Env) c5Event (.start 0) initRun).1.log.filter
      (fun r => match r.status with | .succeeded => true | _ => false)).map
      (fun r => r.stepName)) = ["validation"] ∧
    compensate (orderWf c5Env)
      (invoke (orderWf c5Env) c5Event (.start 0) initRun).1.log = [] := by
  decide

/-- C2: actual behavior of the validation step at amount 75000 — it yields
approver level "director" with a 48 hour timeout, not "vp" with 72, because
the source tests `amount > 10000` before `amount > 50000`, making the vp
branch unreachable dead code. -/
theorem approval_amount75000_director :
    ∃ v, approvalValidation "req-123"
        ⟨some "req-123", some "expense", some ⟨some "requester@example.com"⟩,
          some "Laptop purchase", some 75000, none, none, none⟩ = .ok v ∧
      v.approverLevel = "director" ∧ v.timeoutHours = 48 ∧
      ¬(v.approverLevel = "vp" ∧ v.timeoutHours = 72) := by
  refine ⟨_, rfl, rfl, rfl, by decide⟩

/-- C3.  The order validation step on the sample input (one item, quantity 2,
price 29.99 dollars = 2999 cents) succeeds and returns the two-decimal
formatted total "59.98" — the sum over items of quantity times price, via
`toFixed(2)`. -/
theorem order_validation_total_5998 :
    orderValidation "order-123" [⟨"prod-001", 2, 2999⟩] =
      .ok ⟨"order-123", "validated", 1, "59.98"⟩ := by
  rfl

/-- C9.  The approval handler surfaces a terminal error exactly when the
event lacks a requester or lacks a description; every surfaced error message
starts with the fixed prefix "Approval workflow failed: ", and whenever both
fields are present the handler returns a final result whose status is
"completed_approved" or "completed_rejected" (no later step body can
throw). -/
theorem approval_error_iff_missing_fields (ev : AEvent) (env : AEnv) :
    (isErr (approvalHandler ev env) = true ↔
      (ev.requester = none ∨ ev.description = none)) ∧
    (∀ m, approvalHandler ev env = .error m →
      ∃ rest, m = "Approval workflow failed: " ++ rest) ∧
    (∀ f, approvalHandler ev env = .ok f →
      f.status = "completed_approved" ∨ f.status = "completed_rejected") := by
  rcases ev with ⟨rid, rty, req, desc, am, cb, rp, sat⟩
  rcases env with ⟨gid, aid, nid, eid, cid, rjid, rnid, ap⟩
  cases req with
  | none =>
    refine ⟨?_, ?_, ?_⟩
    · simp [approvalHandler, approvalCore, approvalValidation, isErr]
    · intro m hm
      simp only [approvalHandler, approvalCore, approvalValidation] at hm
      injection hm with hm
      exact ⟨"Requester information is required", hm.symm⟩
    · intro f hf
      simp [approvalHandler, approvalCore, approvalValidation] at hf
  | some r =>
    cases desc with
    | none =>
      refine ⟨?_, ?_, ?_⟩
      · simp [approvalHandler, approvalCore, approvalValidation, isErr]
      · intro m hm
        simp only [approvalHandler, approvalCore, approvalValidation] at hm
        injection hm with hm
        exact ⟨"Request description is required", hm.symm⟩
      · intro f hf
        simp [approvalHandler, approvalCore, approvalValidation] at hf
    | some dsc =>
      cases ap <;> refine ⟨?_, ?_, ?_⟩ <;>
        simp [approvalHandler, approvalCore, approvalValidation, isErr,
          approvalCheckStep]

/-- A step directive contributes no wait. -/
theorem countWaits_cons_step (n : String) (l : List BEvent) :
    countWaits (.step n :: l) = countWaits l := by
  simp [countWaits, List.filter_cons]

/-- A wait directive contributes one wait. -/
theorem countWaits_cons_wait (s : Nat) (l : List BEvent) :
    countWaits (.wait s :: l) = countWaits l + 1 := by
  simp [countWaits, List.filter_cons]

/-- Wait counting distributes over concatenation. -/
theorem countWaits_append (a b : List BEvent) :
    countWaits (a ++ b) = countWaits a + countWaits b := by
  simp [countWaits, List.filter_append]

/-- The per-file loop emits exactly one wait between each pair of consecutive
file steps and none after the last. -/
theorem fileLoopEvents_intersperse (files : List String) :
    fileLoopEvents files =
      List.intersperse (.wait 2) (files.map fun f => .step ("process_file:" ++ f)) := by
  induction files with
  | nil => rfl
  | cons f rest ih =>
    cases rest with
    | nil => rfl
    | cons g t =>
      show BEvent.step ("process_file:" ++ f) :: .wait 2 :: fileLoopEvents (g :: t) = _
      rw [ih]
      rfl

/-- Wait count of the per-file loop. -/
theorem countWaits_fileLoop (files : List String) :
    countWaits (fileLoopEvents files) = files.length - 1 := by
  induction files with
  | nil => rfl
  | cons f rest ih =>
    cases rest with
    | nil => rfl
    | cons g t =>
      show countWaits (.step ("process_file:" ++ f) :: .wait 2 :: fileLoopEvents (g :: t)) = _
      rw [countWaits_cons_step, countWaits_cons_wait, ih]
      simp [List.length_cons]

/-- C10.  For a nonempty validated batch of N files the handler issues exactly
N-1 wait directives of 2 seconds — the directive sequence is the validation
step, then the file steps with one wait interspersed between each consecutive
pair and none after the last, then the summary-report step and the completion
notification. -/
theorem batch_waits_between_files (files : List String) (hne : files ≠ []) :
    ∃ evs, batchDirectives files = .ok evs ∧
      countWaits evs = files.length - 1 ∧
      evs = [.step "validate_batch"] ++
        List.intersperse (.wait 2) (files.map fun f => .step ("process_file:" ++ f)) ++
        [.step "summary_report", .step "completion_notification"] := by
  have hE : files.isEmpty = false := by
    cases files with
    | nil => exact absurd rfl hne
    | cons a t => rfl
  refine ⟨[.step "validate_batch"] ++ fileLoopEvents files ++
      [.step "summary_report", .step "completion_notification"], ?_, ?_, ?_⟩
  · simp [batchDirectives, hE]
  · rw [countWaits_append, countWaits_append, countWaits_fileLoop]
    have h1 : countWaits [BEvent.step "validate_batch"] = 0 := rfl
    have h2 : countWaits [BEvent.step "summary_report",
      BEvent.step "completion_notification"] = 0 := rfl
    omega
  · rw [fileLoopEvents_intersperse]

/-- Witness for C1 on the two-step demo workflow resumed after a crash with
step 0 already checkpointed: only step 1's body runs, the old record
persists, and the replayed prior is the checkpointed value. -/
theorem replay_idempotent_witness :
    (∀ inv ∈ ([⟨"s1", 1, [2], 1⟩] : List (Inv Nat Nat)),
      ([("s0", 2)] : List (String × Nat)).length ≤ inv.sequence) ∧
    (∀ r ∈ (⟨.running, succLog 0 [("s0", 2)], 0, none⟩ : RunState Nat).log,
      r ∈ (⟨.completed, [⟨0, "s0", .succeeded, some 2, none⟩,
        ⟨1, "s1", .succeeded, some 20, none⟩], 0, none⟩ : RunState Nat).log) ∧
    (∀ inv ∈ ([⟨"s1", 1, [2], 1⟩] : List (Inv Nat Nat)), ∀ j,
      j < ([("s0", 2)] : List (String × Nat)).length →
      inv.prior[j]? = (([("s0", 2)] : List (String × Nat)).map Prod.snd)[j]?) :=
  replay_idempotent demoWf 1 0 [("s0", 2)]
    ⟨.running, succLog 0 [("s0", 2)], 0, none⟩
    ⟨.completed, [⟨0, "s0", .succeeded, some 2, none⟩,
      ⟨1, "s1", .succeeded, some 20, none⟩], 0, none⟩
    (.completed [2, 20]) [⟨"s1", 1, [2], 1⟩] rfl rfl rfl

/-- Witness for C4 on the demo workflow with compensations: step "a"'s
compensation outcome is attached even though step "b"'s compensating action
itself failed. -/
theorem compensation_complete_descending_witness :
    ((0 : Nat), "a", (none : Option String)) ∈
      [((1 : Nat), "b", some "rollback of b failed"),
        ((0 : Nat), "a", (none : Option String))] :=
  (compensation_complete_descending compWf 0 0 [] initRun
    ⟨.rolledBack, [⟨0, "a", .succeeded, some 1, none⟩, ⟨1, "b", .succeeded, some 2, none⟩,
      ⟨2, "c", .failed, none, some "boom"⟩], 0, none⟩
    ⟨"c", "boom", [(1, "b", some "rollback of b failed"), (0, "a", none)]⟩
    [⟨"a", 0, [], 0⟩, ⟨"b", 1, [1], 0⟩, ⟨"c", 2, [1, 2], 0⟩]
    rfl rfl rfl).1
    ⟨0, "a", .succeeded, some 1, none⟩ (by decide) rfl 1 rfl compStepA rfl
    (fun _ => none) rfl

/-- Witness for C6 on the demo workflow: the terminal error names the failed
step "c" with error "boom" and carries the coordinator's outcomes. -/
theorem terminal_error_structured_witness :
    (⟨.rolledBack, [⟨0, "a", .succeeded, some 1, none⟩, ⟨1, "b", .succeeded, some 2, none⟩,
      ⟨2, "c", .failed, none, some "boom"⟩], 0, none⟩ : RunState Nat).status = .rolledBack ∧
    (∃ r ∈ (⟨.rolledBack, [⟨0, "a", .succeeded, some 1, none⟩,
      ⟨1, "b", .succeeded, some 2, none⟩,
      ⟨2, "c", .failed, none, some "boom"⟩], 0, none⟩ : RunState Nat).log,
      r.status = .failed ∧
      r.stepName = (⟨"c", "boom", [(1, "b", some "rollback of b failed"),
        (0, "a", none)]⟩ : TerminalError).failedStep ∧
      r.error = some (⟨"c", "boom", [(1, "b", some "rollback of b failed"),
        (0, "a", none)]⟩ : TerminalError).underlying) ∧
    (⟨"c", "boom", [(1, "b", some "rollback of b failed"),
      (0, "a", none)]⟩ : TerminalError).compensations =
      compensate compWf (⟨.rolledBack, [⟨0, "a", .succeeded, some 1, none⟩,
        ⟨1, "b", .succeeded, some 2, none⟩,
        ⟨2, "c", .failed, none, some "boom"⟩], 0, none⟩ : RunState Nat).log :=
  terminal_error_structured compWf 0 0 [] initRun
    ⟨.rolledBack, [⟨0, "a", .succeeded, some 1, none⟩, ⟨1, "b", .succeeded, some 2, none⟩,
      ⟨2, "c", .failed, none, some "boom"⟩], 0, none⟩
    ⟨"c", "boom", [(1, "b", some "rollback of b failed"), (0, "a", none)]⟩
    [⟨"a", 0, [], 0⟩, ⟨"b", 1, [1], 0⟩, ⟨"c", 2, [1, 2], 0⟩]
    rfl rfl rfl

/-- Witness for C7: a resume delivered at time 1, before the approval run's
WaitRecord is due at time 2, is a no-op. -/
theorem suspend_resume_exactly_once_witness :
    invoke c7Wf c7Event (.resume 1) c7St1 = (c7St1, .noop, []) :=
  suspend_resume_exactly_once.1 AVal AEvent c7Wf c7Event c7St1 2 1
    (by decide) (by decide) (by decide)

/-- Witness for C8 on the completed demo run: step "s1"'s body received the
run input 1 and exactly the prior result list [2]. -/
theorem step_body_receives_priors_witness :
    (⟨"s1", 1, [2], 1⟩ : Inv Nat Nat).input = 1 ∧
    (⟨"s1", 1, [2], 1⟩ : Inv Nat Nat).prior.length =
      (⟨"s1", 1, [2], 1⟩ : Inv Nat Nat).sequence ∧
    (⟨"s1", 1, [2], 1⟩ : Inv Nat Nat).prior =
      [2, 20].take (⟨"s1", 1, [2], 1⟩ : Inv Nat Nat).sequence :=
  step_body_receives_priors demoWf 1 0 initRun
    ⟨.completed, [⟨0, "s0", .succeeded, some 2, none⟩,
      ⟨1, "s1", .succeeded, some 20, none⟩], 0, none⟩
    [2, 20] [⟨"s0", 0, [], 1⟩, ⟨"s1", 1, [2], 1⟩] rfl
    ⟨"s1", 1, [2], 1⟩ (by decide)

/-- Witness for C9: an event without a requester makes the handler surface an
error. -/
theorem approval_error_iff_missing_fields_witness :
    isErr (approvalHandler ⟨none, none, none, some "d", none, none, none, none⟩
      c7Env) = true :=
  (approval_error_iff_missing_fields
    ⟨none, none, none, some "d", none, none, none, none⟩ c7Env).1.mpr (Or.inl rfl)

/-- Witness for C10 on a two-file batch: exactly one wait of 2 seconds,
between the two file steps. -/
theorem batch_waits_between_files_witness :
    ∃ evs, batchDirectives ["customers.csv", "orders.csv"] = .ok evs ∧
      countWaits evs = ["customers.csv", "orders.csv"].length - 1 ∧
      evs = [.step "validate_batch"] ++
        List.intersperse (.wait 2) (["customers.csv", "orders.csv"].map
          fun f => .step ("process_file:" ++ f)) ++
        [.step "summary_report", .step "completion_notification"] :=
  batch_waits_between_files ["customers.csv", "orders.csv"] (by decide)

end Durable
